import Mathlib

/-!
Shallow embedding of the Simple-SQL-Engine repository (Rust sources
`parser.rs`, `engine.rs`, `database.rs`).

The parser is modelled as functions on the remaining input, a `List Char`
(the Rust code keeps a byte cursor into the source string; only the suffix
after the cursor ever matters, and the cursor moves char by char).  Fallible
Rust code returning `Result<_, &'static str>` becomes `Except String _`;
Rust panics (`unwrap` on `Option`) become `Option` with `none` standing for
the abort.  `BTreeMap<String, V>` is modelled as its sorted association
list, with `insertKV` performing the ordered insert-or-replace of
`BTreeMap::insert` and `getKV` the key lookup of `BTreeMap::get`.
-/

namespace SimpleSQL

/-! ## Value model (`parser.rs`) -/

/-- `Column` of `parser.rs`: a qualified `table.column` reference. -/
structure Column where
  table_name : String
  column_name : String
deriving DecidableEq

/-- `Const` of `parser.rs`: `Number(i64)` or `String(String)`.  The `i64`
payload is modelled as `Int`; the only place the source performs a
conversion that can leave the `i64` range is the `row.id as i64` cast,
which is modelled explicitly by `u128_as_i64` below. -/
inductive Const where
  | Number : Int → Const
  | String : String → Const
deriving DecidableEq

/-- `Value` of `parser.rs`: a column reference or a constant. -/
inductive Value where
  | Column : Column → Value
  | Const : Const → Value
deriving DecidableEq

/-- `Comparison` of `parser.rs`. -/
inductive Comparison where
  | Eq | Gt | Lt | Le | Ge | Ne
deriving DecidableEq

/-- `ValueTest` of `parser.rs` (the `on` field is written `on_` because
`on` collides with Lean notation). -/
structure ValueTest where
  left : Value
  comparison : Comparison
  right : Value
deriving DecidableEq

/-- `Join` of `parser.rs`. -/
structure Join where
  table_name : String
  on_ : ValueTest
deriving DecidableEq

/-- `Query` of `parser.rs` without its private `input` cursor (`from` is a
Lean keyword, written `from_`). -/
structure Query where
  select : List Column
  from_ : String
  joins : List Join
  where_clause : Option ValueTest
deriving DecidableEq

/-- `Comparison::from_str` of `parser.rs`. -/
def Comparison.from_str (s : String) : Option Comparison :=
  match s with
  | "=" => some Comparison.Eq
  | ">" => some Comparison.Gt
  | "<" => some Comparison.Lt
  | "<=" => some Comparison.Le
  | ">=" => some Comparison.Ge
  | "<>" => some Comparison.Ne
  | _ => none

/-! ## Parser primitives (`Input` of `parser.rs`) -/

/-- The whitespace test of `Input::consume_whitespace`:
`c.is_whitespace() || c == '\r' || c == '\n'`. -/
def isWhitespaceChar (c : Char) : Bool :=
  c.isWhitespace || c = '\r' || c = '\n'

/-- `Input::consume_whitespace`. -/
def consumeWhitespace (s : List Char) : List Char :=
  s.dropWhile isWhitespaceChar

/-- `Input::consume_until` / `Input::consume_until_any`: consume characters
while the next one is not a delimiter, returning the consumed prefix and
the rest (the delimiter itself is not consumed; hitting the end of input is
not an error in the source). -/
def consumeUntilAny (delims : List Char) (s : List Char) : List Char × List Char :=
  (s.takeWhile (fun c => !delims.contains c), s.dropWhile (fun c => !delims.contains c))

/-- `Input::expect`: match the expected characters one by one. -/
def expectStr : List Char → List Char → Except String (List Char)
  | [], s => .ok s
  | e :: er, c :: cr =>
      if c = e then expectStr er cr else .error ("Unexpected character")
  | _ :: _, [] => .error ("Unexpected character")

/-- `str::trim_matches` for a set of characters: strip them from both ends. -/
def trimMatches (cs : List Char) (l : List Char) : List Char :=
  ((l.dropWhile (fun c => cs.contains c)).reverse.dropWhile
      (fun c => cs.contains c)).reverse

/-- The `['\r', '\n']` trim set used throughout `parser.rs`. -/
def crlf : List Char := ['\r', '\n']

/-- The single-quote character (the string-literal delimiter). -/
def quoteChar : Char := Char.ofNat 39

/-- Decimal-digit accumulator used by the model of `str::parse::<i64>`. -/
def digitsToNatAux : Nat → List Char → Option Nat
  | acc, [] => some acc
  | acc, c :: cs =>
      if c.isDigit then digitsToNatAux (acc * 10 + (c.toNat - 48)) cs
      else none

/-- `str::parse::<i64>`: optional sign, at least one digit, all digits,
result within the signed 64-bit range. -/
def parseI64 (cs : List Char) : Option Int :=
  match cs with
  | [] => none
  | c :: rest =>
      if c = '-' then
        match rest with
        | [] => none
        | _ =>
            (digitsToNatAux 0 rest).bind fun n =>
              if n ≤ 2 ^ 63 then some (-(n : Int)) else none
      else if c = '+' then
        match rest with
        | [] => none
        | _ =>
            (digitsToNatAux 0 rest).bind fun n =>
              if n ≤ 2 ^ 63 - 1 then some (n : Int) else none
      else
        (digitsToNatAux 0 cs).bind fun n =>
          if n ≤ 2 ^ 63 - 1 then some (n : Int) else none

/-! ## Recursive-descent parser (`Query::parse*` of `parser.rs`) -/

/-- `Query::parse_value` (a WHERE operand): leading quote → string literal
branch, leading digit → integer literal branch, otherwise a qualified
column reference.  Returns the parsed `Value` and the remaining input. -/
def parse_value (s0 : List Char) : Except String (Value × List Char) :=
  let s := consumeWhitespace s0
  if s.head? = some quoteChar then
    let p := consumeUntilAny [quoteChar] s
    match expectStr [quoteChar] p.2 with
    | .error e => .error e
    | .ok s2 => .ok (Value.Const (Const.String (String.mk p.1)), s2)
  else if (s.head?.map Char.isDigit).getD false then
    let p := consumeUntilAny [' ', '\n', '\r'] s
    match parseI64 (trimMatches crlf p.1) with
    | none => .error ("Failed to parse number")
    | some n => .ok (Value.Const (Const.Number n), p.2)
  else
    let p := consumeUntilAny ['.'] s
    match expectStr ['.'] p.2 with
    | .error e => .error e
    | .ok s2 =>
        let q := consumeUntilAny [' ', '\n', '\r'] s2
        .ok (Value.Column
              ⟨String.mk (trimMatches crlf p.1), String.mk (trimMatches crlf q.1)⟩,
             q.2)

/-- The column loop inside `Query::parse_select`; `fuel` bounds the number
of iterations (each continuing iteration consumes at least the comma, so
`s.length + 1` is always enough). -/
def parseSelectColumns (fuel : Nat) (acc : List Column) (s : List Char) :
    Except String (List Column × List Char) :=
  match fuel with
  | 0 => .error ("Unexpected character")
  | fuel' + 1 =>
      let p := consumeUntilAny ['.'] s
      match expectStr ['.'] p.2 with
      | .error e => .error e
      | .ok s2 =>
          let q := consumeUntilAny [',', ' ', '\n'] s2
          let col : Column := ⟨String.mk p.1, String.mk (trimMatches crlf q.1)⟩
          let s4 := consumeWhitespace q.2
          if s4.head? = some ',' then
            parseSelectColumns fuel' (acc ++ [col]) (consumeWhitespace s4.tail)
          else
            .ok (acc ++ [col], s4)

/-- `Query::parse_select`. -/
def parse_select (s0 : List Char) : Except String (List Column × List Char) :=
  let s := consumeWhitespace s0
  match expectStr (("SELECT").toList) s with
  | .error e => .error e
  | .ok s1 => parseSelectColumns (s1.length + 1) [] (consumeWhitespace s1)

/-- `Query::parse_from`. -/
def parse_from (s0 : List Char) : Except String (String × List Char) :=
  let s := consumeWhitespace s0
  match expectStr (("FROM").toList) s with
  | .error e => .error e
  | .ok s1 =>
      let p := consumeUntilAny [' ', '\n'] (consumeWhitespace s1)
      .ok (String.mk (trimMatches crlf p.1), p.2)

/-- The joined-table token of a JOIN clause: skip whitespace, consume to a
space or newline, trim CR/LF.  `joinToken` is its text, `joinTokenRest` the
input after it; the same shape reads the comparison token. -/
def joinToken (s : List Char) : String :=
  String.mk (trimMatches crlf (consumeUntilAny [' ', '\n'] (consumeWhitespace s)).1)

def joinTokenRest (s : List Char) : List Char :=
  (consumeUntilAny [' ', '\n'] (consumeWhitespace s)).2

/-- An ON operand of a JOIN clause: `consume_until(".")` (no trim), the
mandatory dot, then the column token (trimmed) — always a column
reference. -/
def parseJoinColumnRef (s : List Char) : Except String (Column × List Char) :=
  let p := consumeUntilAny ['.'] s
  match expectStr ['.'] p.2 with
  | .error e => .error e
  | .ok s2 =>
      let q := consumeUntilAny [' ', '\n'] s2
      .ok (⟨String.mk p.1, String.mk (trimMatches crlf q.1)⟩, q.2)

/-- One iteration of the `while` loop of `Query::parse_joins`: both ON
operands are parsed with bare `consume_until(".")` / `consume_until_any`
calls and are always packaged as `Value::Column`. -/
def parseJoinOne (s : List Char) : Except String (Join × List Char) :=
  match expectStr (("JOIN").toList) s with
  | .error e => .error e
  | .ok s1 =>
  match expectStr (("ON").toList) (consumeWhitespace (joinTokenRest s1)) with
  | .error e => .error e
  | .ok s5 =>
  match parseJoinColumnRef (consumeWhitespace s5) with
  | .error e => .error e
  | .ok lp =>
  match parseJoinColumnRef (consumeWhitespace (joinTokenRest lp.2)) with
  | .error e => .error e
  | .ok rp =>
  match Comparison.from_str (joinToken lp.2) with
  | none => .error ("Invalid comparison operator")
  | some comparison =>
      .ok (⟨joinToken s1,
            ⟨Value.Column lp.1, comparison, Value.Column rp.1⟩⟩,
           consumeWhitespace rp.2)

/-- The `while self.input.peek() == Some('J')` loop of `Query::parse_joins`;
`fuel` bounds the iteration count (each iteration consumes the `JOIN`
keyword, so `s.length + 1` is always enough). -/
def parseJoinsLoop (fuel : Nat) (acc : List Join) (s : List Char) :
    Except String (List Join × List Char) :=
  match fuel with
  | 0 => .error ("Unexpected character")
  | fuel' + 1 =>
      if s.head? = some 'J' then
        match parseJoinOne s with
        | .error e => .error e
        | .ok js' => parseJoinsLoop fuel' (acc ++ [js'.1]) js'.2
      else
        .ok (acc, s)

/-- `Query::parse_joins`. -/
def parse_joins (s0 : List Char) : Except String (List Join × List Char) :=
  let s := consumeWhitespace s0
  parseJoinsLoop (s.length + 1) [] s

/-- `Query::parse_where`. -/
def parse_where (s0 : List Char) : Except String (Option ValueTest × List Char) :=
  let s := consumeWhitespace s0
  if s.head? = some 'W' then
    match expectStr (("WHERE").toList) s with
    | .error e => .error e
    | .ok s1 =>
        match parse_value (consumeWhitespace s1) with
        | .error e => .error e
        | .ok lp =>
            let pcmp := consumeUntilAny [' '] (consumeWhitespace lp.2)
            match parse_value (consumeWhitespace pcmp.2) with
            | .error e => .error e
            | .ok rp =>
                match Comparison.from_str (String.mk (trimMatches crlf pcmp.1)) with
                | none => .error ("Invalid comparison operator")
                | some comparison => .ok (some ⟨lp.1, comparison, rp.1⟩, rp.2)
  else
    .ok (none, s)

/-- `Query::parse`: SELECT, FROM, JOIN*, WHERE? in order. -/
def parse (s : List Char) : Except String Query :=
  match parse_select s with
  | .error e => .error e
  | .ok sp =>
  match parse_from sp.2 with
  | .error e => .error e
  | .ok fp =>
  match parse_joins fp.2 with
  | .error e => .error e
  | .ok jp =>
  match parse_where jp.2 with
  | .error e => .error e
  | .ok wp => .ok ⟨sp.1, fp.1, jp.1, wp.1⟩

/-- `parse_query` of `parser.rs`: it calls `parse().unwrap()`, so a parse
error becomes a panic — the caller receives a `Query` or the process
aborts; `none` models the abort, and no error payload crosses this
boundary. -/
def parse_query (s : List Char) : Option Query :=
  (parse s).toOption

/-! ## Row store (`database.rs`) -/

/-- The subset of `serde_json::Value` the engine can meet, classified by
what `Value::from_serde_value` does with it: a number representable as
`i64` (carrying that value), a number `as_i64` rejects, a JSON string, and
every other JSON shape. -/
inductive JValue where
  | NumberI64 : Int → JValue
  | NumberOther : JValue
  | Str : String → JValue
  | Other : JValue
deriving DecidableEq

/-- `Row` of `database.rs`: a 128-bit unsigned id (a `Nat` here) and the
sorted association list of the `BTreeMap` from bare column names to stored
scalars. -/
structure Row where
  id : Nat
  columns : List (String × JValue)
deriving DecidableEq

/-- `Table` of `database.rs`: its `BTreeSet<Row>` iterated in ascending id
order, modelled as that iteration sequence. -/
structure Table where
  rows : List Row
deriving DecidableEq

/-- `Database` of `database.rs`: the sorted association list of its
`BTreeMap<String, Table>`. -/
structure Database where
  tables : List (String × Table)
deriving DecidableEq

/-- `BTreeMap::get` on the `tables` map. -/
def Database.get (db : Database) (name : String) : Option Table :=
  (db.tables.find? (fun kv => kv.1 == name)).map (fun kv => kv.2)

/-! ## Execution engine (`engine.rs`) -/

/-- A working-relation row: the sorted association list of the
`BTreeMap<String, Value>` from qualified keys to values. -/
abbrev RowMap := List (String × Value)

/-- The `format!("{}.{}", table_name, column_name)` qualified key. -/
def qualify (t c : String) : String := t ++ "." ++ c

/-- `BTreeMap::get`: look a key up in a row. -/
def getKV : RowMap → String → Option Value
  | [], _ => none
  | kv :: rest, key => if key = kv.1 then some kv.2 else getKV rest key

/-- Lexicographic order on character lists (by codepoint). -/
def charListLt : List Char → List Char → Bool
  | [], [] => false
  | [], _ :: _ => true
  | _ :: _, [] => false
  | a :: as, b :: bs =>
      if a < b then true
      else if b < a then false
      else charListLt as bs

/-- The `Ord` used by `BTreeMap<String, _>`: Rust compares `String`s
lexicographically by bytes, which on valid UTF-8 equals the lexicographic
order on codepoints. -/
def stringLt (a b : String) : Bool := charListLt a.data b.data

/-- `BTreeMap::insert`: ordered insert-or-replace into a row. -/
def insertKV : RowMap → String × Value → RowMap
  | [], p => [p]
  | kv :: rest, p =>
      if stringLt p.1 kv.1 then p :: kv :: rest
      else if p.1 = kv.1 then p :: rest
      else kv :: insertKV rest p

/-- `Value::get_const` of `engine.rs`. -/
def Value.get_const : Value → Option SimpleSQL.Const
  | .Const c => some c
  | _ => none

/-- `Value::from_serde_value` of `engine.rs`: numbers and strings become
constants; `as_i64` failure and every other JSON shape panic (`none`). -/
def Value.from_serde_value : JValue → Option Value
  | .NumberI64 n => some (Value.Const (Const.Number n))
  | .Str s => some (Value.Const (Const.String s))
  | _ => none

/-- `View::get_column_value`: a constant resolves to itself; a column
resolves by qualified-key lookup in the row, then `get_const` on the found
value (so a stored non-constant also yields `none`). -/
def get_column_value (row : RowMap) (v : Value) : Option Const :=
  match v with
  | .Const c => some c
  | .Column c =>
      match getKV row (qualify c.table_name c.column_name) with
      | none => none
      | some w => w.get_const

/-- `View::compare_values`: same-variant comparisons use the scalar order,
every mismatched-variant comparison is `false`. -/
def compare_values (left : Const) (comparison : Comparison) (right : Const) : Bool :=
  match left, right with
  | .Number l, .Number r =>
      match comparison with
      | .Eq => decide (l = r)
      | .Gt => decide (l > r)
      | .Lt => decide (l < r)
      | .Le => decide (l ≤ r)
      | .Ge => decide (l ≥ r)
      | .Ne => decide (l ≠ r)
  | .String l, .String r =>
      match comparison with
      | .Eq => decide (l = r)
      | .Gt => decide (l > r)
      | .Lt => decide (l < r)
      | .Le => decide (l ≤ r)
      | .Ge => decide (l ≥ r)
      | .Ne => decide (l ≠ r)
  | _, _ => false

/-- The `row.id as i64` cast of `View::table_to_vec`: reduce the 128-bit
unsigned id modulo `2 ^ 64` and reinterpret as two's-complement signed. -/
def u128_as_i64 (n : Nat) : Int :=
  let m : Nat := n % 2 ^ 64
  if m < 2 ^ 63 then (m : Int) else (m : Int) - 2 ^ 64

/-- The per-row body of `View::table_to_vec`: qualify every stored column
(`from_serde_value` panics propagate as `none`), then insert the
synthesized `<table>.id` key. -/
def rowToWorking (table_name : String) (row : Row) : Option RowMap := do
  let base ← row.columns.mapM (fun kv =>
    (Value.from_serde_value kv.2).map (fun v => (qualify table_name kv.1, v)))
  pure (insertKV base
    (qualify table_name ("id"), Value.Const (Const.Number (u128_as_i64 row.id))))

/-- `View::table_to_vec`: `tables.get(..).unwrap()` (panic → `none`) then
materialize every stored row in table iteration (id) order. -/
def table_to_vec (db : Database) (table_name : String) : Option (List RowMap) := do
  let t ← db.get table_name
  t.rows.mapM (rowToWorking table_name)

/-- One (left, right) probe of the nested-loop join: resolve each ON
operand first against the left row, falling back to the joined row
(`Option::or`), and compare; an unresolved operand is the `unwrap` panic
(`none`). -/
def join_pair (onT : ValueTest) (row join_row : RowMap) : Option Bool :=
  match (get_column_value row onT.left).or (get_column_value join_row onT.left),
        (get_column_value row onT.right).or (get_column_value join_row onT.right) with
  | some lv, some rv => some (compare_values lv onT.comparison rv)
  | _, _ => none

/-- The match action of `View::joins`: copy the left row and insert every
key of the joined row (so the joined row wins on shared keys). -/
def merge_row (row join_row : RowMap) : RowMap :=
  join_row.foldl insertKV row

/-- The inner loop of `View::joins`: probe one left row against the whole
joined table, appending a merged row per match. -/
def join_one (onT : ValueTest) (row : RowMap) : List RowMap → Option (List RowMap)
  | [] => some []
  | jr :: rest => do
      let b ← join_pair onT row jr
      let tail ← join_one onT row rest
      pure (if b then merge_row row jr :: tail else tail)

/-- The outer loop of `View::joins` for one JOIN clause: all matches of the
first left row first, then the second, and so on. -/
def join_step (onT : ValueTest) (rows jt : List RowMap) : Option (List RowMap) :=
  match rows with
  | [] => some []
  | r :: rest => do
      let xs ← join_one onT r jt
      let ys ← join_step onT rest jt
      pure (xs ++ ys)

/-- `View::joins`: fold the JOIN clauses in order, materializing each
joined table like the FROM table. -/
def joins (db : Database) (js : List Join) (rows : List RowMap) :
    Option (List RowMap) :=
  match js with
  | [] => some rows
  | j :: rest => do
      let jt ← table_to_vec db j.table_name
      let rows' ← join_step j.on_ rows jt
      joins db rest rows'

/-- The per-row test of `View::apply_where`: both operands resolve against
the row alone and the comparator is evaluated; an unresolved operand is the
`unwrap` panic (`none`). -/
def where_test (wt : ValueTest) (row : RowMap) : Option Bool :=
  match get_column_value row wt.left, get_column_value row wt.right with
  | some lv, some rv => some (compare_values lv wt.comparison rv)
  | _, _ => none

/-- The `Vec::retain` of `View::apply_where`: keep the rows whose test is
`true`, in order; any panic aborts the stage. -/
def filter_rows (wt : ValueTest) : List RowMap → Option (List RowMap)
  | [] => some []
  | r :: rest => do
      let b ← where_test wt r
      let tail ← filter_rows wt rest
      pure (if b then r :: tail else tail)

/-- `View::apply_where`: a missing WHERE clause leaves the rows unchanged. -/
def apply_where (w : Option ValueTest) (rows : List RowMap) :
    Option (List RowMap) :=
  match w with
  | none => some rows
  | some wt => filter_rows wt rows

/-- The qualified names of the SELECT list (the `column_names` set of
`View::select`; list membership equals `BTreeSet` membership). -/
def select_keys (sel : List Column) : List String :=
  sel.map (fun c => qualify c.table_name c.column_name)

/-- `View::select`: per row, keep exactly the entries whose key is named in
the SELECT list. -/
def select (sel : List Column) (rows : List RowMap) : List RowMap :=
  rows.map (fun r => r.filter (fun kv => decide (kv.1 ∈ select_keys sel)))

/-- `View::execute`: `from`, `joins`, `apply_where`, `select` in sequence;
any panic in a stage aborts the whole query (`none`). -/
def execute (q : Query) (db : Database) : Option (List RowMap) := do
  let r1 ← table_to_vec db q.from_
  let r2 ← joins db q.joins r1
  let r3 ← apply_where q.where_clause r2
  pure (select q.select r3)

/-- The whole caller-visible pipeline of `main.rs`: `parse_query` (which
panics on a parse error) followed by `View::execute` (which panics on a
resolution failure); `none` is the one undifferentiated abort. -/
def runQuery (s : List Char) (db : Database) : Option (List RowMap) := do
  let q ← parse_query s
  execute q db

/-! ## Lemmas about the row-map operations -/

theorem getKV_insertKV_self (l : RowMap) (k : String) (v : Value) :
    getKV (insertKV l (k, v)) k = some v := by
  induction l with
  | nil => simp [insertKV, getKV]
  | cons kv t ih =>
      rw [insertKV]
      split
      · simp [getKV]
      · split
        · simp [getKV]
        · rename_i h1 h2
          simp [getKV, h2, ih]

theorem getKV_insertKV_ne (l : RowMap) (k : String) (v : Value) (k' : String)
    (hne : k' ≠ k) : getKV (insertKV l (k, v)) k' = getKV l k' := by
  induction l with
  | nil => simp [insertKV, getKV, hne]
  | cons kv t ih =>
      rw [insertKV]
      split
      · simp [getKV, hne]
      · split
        · rename_i h1 h2
          have h2' : k = kv.1 := h2
          simp [getKV, hne, ← h2']
        · by_cases h3 : k' = kv.1 <;> simp [getKV, h3, ih]

theorem mem_insertKV {l : RowMap} {p q : String × Value}
    (h : p ∈ insertKV l q) : p = q ∨ p ∈ l := by
  induction l with
  | nil =>
      rw [insertKV] at h
      exact Or.inl (List.mem_singleton.mp h)
  | cons kv t ih =>
      rw [insertKV] at h
      split at h
      · rcases List.mem_cons.mp h with h2 | h2
        · exact Or.inl h2
        · exact Or.inr h2
      · split at h
        · rcases List.mem_cons.mp h with h3 | h3
          · exact Or.inl h3
          · exact Or.inr (List.mem_cons_of_mem _ h3)
        · rcases List.mem_cons.mp h with h3 | h3
          · exact Or.inr (List.mem_cons.mpr (Or.inl h3))
          · rcases ih h3 with h4 | h4
            · exact Or.inl h4
            · exact Or.inr (List.mem_cons_of_mem _ h4)

theorem getKV_eq_none_of_forall_ne {l : RowMap} {k : String}
    (h : ∀ p ∈ l, p.1 ≠ k) : getKV l k = none := by
  induction l with
  | nil => rfl
  | cons kv t ih =>
      have hk : k ≠ kv.1 := fun he => (h kv (List.mem_cons_self kv t)) he.symm
      simp [getKV, hk]
      exact ih (fun p hp => h p (List.mem_cons_of_mem _ hp))

theorem getKV_some_mem {l : RowMap} {k : String} {v : Value}
    (h : getKV l k = some v) : (k, v) ∈ l := by
  induction l with
  | nil => simp [getKV] at h
  | cons kv t ih =>
      by_cases hk : k = kv.1
      · simp [getKV, hk] at h
        subst hk
        simp [← h]
      · simp [getKV, hk] at h
        exact List.mem_cons_of_mem _ (ih h)

theorem getKV_foldl_insertKV (join_row : RowMap) :
    ∀ row : RowMap, join_row.Pairwise (fun a b => a.1 ≠ b.1) →
      ∀ k, getKV (join_row.foldl insertKV row) k
        = (getKV join_row k).or (getKV row k) := by
  induction join_row with
  | nil =>
      intro row _ k
      simp [getKV]
  | cons kv t ih =>
      intro row hu k
      obtain ⟨k1, v1⟩ := kv
      rw [List.foldl_cons, ih (insertKV row (k1, v1)) hu.of_cons k]
      by_cases hk : k = k1
      · subst hk
        have hnone : getKV t k = none :=
          getKV_eq_none_of_forall_ne
            (fun p hp => (List.rel_of_pairwise_cons hu hp).symm)
        rw [hnone, getKV_insertKV_self]
        simp [getKV, Option.or]
      · rw [getKV_insertKV_ne row k1 v1 k hk]
        simp [getKV, hk]

/-- `BTreeMap::get` after the merge loop of `View::joins`: for a joined row
with pairwise-distinct keys (the `BTreeMap` shape), the joined row's
binding wins and the left row's is the fallback. -/
theorem getKV_merge_row (row : RowMap) (join_row : RowMap)
    (hu : join_row.Pairwise (fun a b => a.1 ≠ b.1)) (k : String) :
    getKV (merge_row row join_row) k = (getKV join_row k).or (getKV row k) :=
  getKV_foldl_insertKV join_row row hu k

theorem getKV_filter_mem (ks : List String) (l : RowMap) (k : String) :
    getKV (l.filter (fun kv => decide (kv.1 ∈ ks))) k
      = if k ∈ ks then getKV l k else none := by
  induction l with
  | nil => by_cases hp : k ∈ ks <;> simp [getKV, hp]
  | cons kv t ih =>
      by_cases hk : k = kv.1
      · subst hk
        by_cases hp : kv.1 ∈ ks <;> simp [List.filter_cons, getKV, hp, ih]
      · by_cases hp : kv.1 ∈ ks <;> by_cases hq : k ∈ ks <;>
          simp [List.filter_cons, getKV, hp, hq, hk, ih]

/-! ## Claim theorems -/

/-- C2: for constants of different scalar variants (one Integer, one Text),
every comparator — `=`, `<>`, `<`, `<=`, `>`, `>=` — evaluates to `false`,
in the bare comparison, in WHERE filtering (`where_test`), and in join
matching (`join_pair`). -/
theorem c2_mismatched_variants_false (comparison : Comparison) (n : Int)
    (s : String) (row join_row : RowMap) :
    compare_values (Const.Number n) comparison (Const.String s) = false ∧
    compare_values (Const.String s) comparison (Const.Number n) = false ∧
    where_test ⟨Value.Const (Const.Number n), comparison,
                Value.Const (Const.String s)⟩ row = some false ∧
    join_pair ⟨Value.Const (Const.Number n), comparison,
               Value.Const (Const.String s)⟩ row join_row = some false :=
  ⟨rfl, rfl, rfl, rfl⟩

/-- C7: projection keeps in each row exactly the keys whose qualified name
appears in the SELECT list (a selected key absent from a row is simply
absent from the result — `select` is total, so no error is possible), drops
every other key, and preserves the rows in order. -/
theorem c7_projection_keeps_selected_keys (sel : List Column) (rows : List RowMap) :
    (select sel rows).length = rows.length ∧
    List.Forall₂ (fun r r' => ∀ k : String,
        getKV r' k = if k ∈ select_keys sel then getKV r k else none)
      rows (select sel rows) := by
  constructor
  · simp [select]
  · unfold select
    induction rows with
    | nil => exact List.Forall₂.nil
    | cons r t ih =>
        exact List.Forall₂.cons (fun k => getKV_filter_mem (select_keys sel) r k) ih

/-- The inner loop of `View::joins`, when every probe of this left row
resolves: it appends, in joined-table order, the merge of the left row with
each matching joined row. -/
theorem join_one_eq (onT : ValueTest) (row : RowMap) (jt : List RowMap)
    (h : ∀ r ∈ jt, (join_pair onT row r).isSome) :
    join_one onT row jt
      = some ((jt.filter (fun r => (join_pair onT row r).getD false)).map
          (merge_row row)) := by
  induction jt with
  | nil => rfl
  | cons jr t ih =>
      rcases Option.isSome_iff_exists.mp (h jr (List.mem_cons_self jr t)) with ⟨b, hb⟩
      have ht := ih (fun r hr => h r (List.mem_cons_of_mem _ hr))
      cases b <;> simp [join_one, hb, ht, List.filter_cons]

/-- The outer loop of `View::joins`, when every (left, right) probe
resolves: the result concatenates, left row by left row, the merged
matches of that left row. -/
theorem join_step_eq (onT : ValueTest) (rows jt : List RowMap)
    (h : ∀ l ∈ rows, ∀ r ∈ jt, (join_pair onT l r).isSome) :
    join_step onT rows jt
      = some (rows.flatMap fun l =>
          (jt.filter (fun r => (join_pair onT l r).getD false)).map (merge_row l)) := by
  induction rows with
  | nil => rfl
  | cons r rest ih =>
      have h1 := join_one_eq onT r jt (h r (List.mem_cons_self r rest))
      have h2 := ih (fun l hl => h l (List.mem_cons_of_mem _ hl))
      simp [join_step, h1, h2]

/-- C1: a join stage on a working relation and a joined table whose ON
probes all resolve (and whose joined rows have the distinct keys of a
`BTreeMap`) produces exactly the merged row of every matching
(left, right) pair: the result is the concatenation, in left-row order, of
the matches of each left row in joined-table order (the joined table is
materialized by `table_to_vec` in stored id order); its length is the
number of matching pairs; and in every merged row the joined row's value
wins on any shared key, the left row's value surviving otherwise. -/
theorem c1_join_stage (onT : ValueTest) (rows jt : List RowMap)
    (hres : ∀ l ∈ rows, ∀ r ∈ jt, (join_pair onT l r).isSome)
    (hkeys : ∀ r ∈ jt, r.Pairwise (fun a b => a.1 ≠ b.1)) :
    join_step onT rows jt
      = some (rows.flatMap fun l =>
          (jt.filter (fun r => (join_pair onT l r).getD false)).map (merge_row l)) ∧
    (rows.flatMap fun l =>
        (jt.filter (fun r => (join_pair onT l r).getD false)).map (merge_row l)).length
      = (rows.map (fun l => jt.countP (fun r => (join_pair onT l r).getD false))).sum ∧
    ∀ l ∈ rows, ∀ r ∈ jt, ∀ k,
      getKV (merge_row l r) k = (getKV r k).or (getKV l k) := by
  refine ⟨join_step_eq onT rows jt hres, ?_, ?_⟩
  · rw [List.length_flatMap]
    congr 1
    apply List.map_congr_left
    intro l _
    simp [List.countP_eq_length_filter]
  · intro l _ r hr k
    exact getKV_merge_row l r (hkeys r hr) k

def c1w_on : ValueTest :=
  ⟨Value.Column ⟨"a", "x"⟩, Comparison.Eq, Value.Column ⟨"b", "y"⟩⟩

def c1w_rows : List RowMap :=
  [[("a.x", Value.Const (Const.Number 1))]]

def c1w_jt : List RowMap :=
  [[("b.y", Value.Const (Const.Number 1))],
   [("b.y", Value.Const (Const.Number 2))]]

/-- Witness for C1 at a concrete join stage: one left row, a two-row joined
table, exactly one matching pair, one merged output row. -/
theorem c1_join_stage_witness :
    (∀ l ∈ c1w_rows, ∀ r ∈ c1w_jt, (join_pair c1w_on l r).isSome) ∧
    (∀ r ∈ c1w_jt, r.Pairwise (fun a b => a.1 ≠ b.1)) ∧
    join_step c1w_on c1w_rows c1w_jt
      = some [[("a.x", Value.Const (Const.Number 1)),
               ("b.y", Value.Const (Const.Number 1))]] := by
  refine ⟨by decide, by decide, ?_⟩
  have h := (c1_join_stage c1w_on c1w_rows c1w_jt (by decide) (by decide)).1
  rw [h]
  rfl

/-- When every row of the relation passes resolution, `View::apply_where`
retains, in order, exactly the rows whose comparator evaluates true. -/
theorem filter_rows_eq (wt : ValueTest) :
    ∀ rows : List RowMap, (∀ r ∈ rows, (where_test wt r).isSome) →
      filter_rows wt rows
        = some (rows.filter fun r => (where_test wt r).getD false) := by
  intro rows
  induction rows with
  | nil => intro _; rfl
  | cons r t ih =>
      intro h
      rcases Option.isSome_iff_exists.mp (h r (List.mem_cons_self r t)) with ⟨b, hb⟩
      have ht := ih (fun r' hr' => h r' (List.mem_cons_of_mem _ hr'))
      cases b <;> simp [filter_rows, hb, ht, List.filter_cons]

/-- An unresolved WHERE operand in any row aborts the whole filter stage. -/
theorem filter_rows_none (wt : ValueTest) :
    ∀ rows : List RowMap, (∃ r ∈ rows, where_test wt r = none) →
      filter_rows wt rows = none := by
  intro rows
  induction rows with
  | nil =>
      rintro ⟨r, hr, _⟩
      cases hr
  | cons a t ih =>
      rintro ⟨r, hr, hnone⟩
      rcases List.mem_cons.mp hr with h1 | h1
      · subst h1
        simp [filter_rows, hnone]
      · cases ha : where_test wt a with
        | none => simp [filter_rows, ha]
        | some b =>
            have ht := ih ⟨r, h1, hnone⟩
            simp [filter_rows, ha, ht]

/-- C6: when a WHERE clause is present, the filter stage keeps exactly the
rows whose operands resolve and whose comparator holds, the survivors keep
their relative order (the kept list is a sublist of the input), and a row
with an unresolved operand column is fatal for the stage — and hence, by
the `execute` chain of binds, for the whole query. -/
theorem c6_where_filter (wt : ValueTest) (rows : List RowMap) :
    ((∀ r ∈ rows, (where_test wt r).isSome) →
      filter_rows wt rows
        = some (rows.filter fun r => (where_test wt r).getD false) ∧
      (rows.filter fun r => (where_test wt r).getD false).Sublist rows) ∧
    ((∃ r ∈ rows, where_test wt r = none) → filter_rows wt rows = none) :=
  ⟨fun h => ⟨filter_rows_eq wt rows h, List.filter_sublist _⟩,
   fun h => filter_rows_none wt rows h⟩

def c6w_wt : ValueTest :=
  ⟨Value.Column ⟨"t", "a"⟩, Comparison.Eq, Value.Const (Const.Number 20)⟩

def c6w_rows : List RowMap :=
  [[("t.a", Value.Const (Const.Number 10))],
   [("t.a", Value.Const (Const.Number 20))]]

def c6w_bad : List RowMap :=
  [[("x.b", Value.Const (Const.Number 1))]]

/-- Witness for C6: a resolving relation is filtered to the matching row,
and a relation with an unresolvable operand aborts the stage. -/
theorem c6_where_filter_witness :
    filter_rows c6w_wt c6w_rows
      = some [[("t.a", Value.Const (Const.Number 20))]] ∧
    filter_rows c6w_wt c6w_bad = none := by
  constructor
  · have h := ((c6_where_filter c6w_wt c6w_rows).1 (by decide)).1
    rw [h]
    rfl
  · exact (c6_where_filter c6w_wt c6w_bad).2 (by decide)

theorem filter_idem {α : Type} (p : α → Bool) (l : List α) :
    (l.filter p).filter p = l.filter p := by
  induction l with
  | nil => rfl
  | cons a t ih => cases h : p a <;> simp [List.filter_cons, h, ih]

/-- C9: projecting by a SELECT list and projecting the result again by the
same SELECT list yields the same relation — projection is idempotent. -/
theorem c9_projection_idempotent (sel : List Column) (rows : List RowMap) :
    select sel (select sel rows) = select sel rows := by
  unfold select
  rw [List.map_map]
  exact List.map_congr_left (fun r _ => filter_idem _ r)

/-- C8 (amended): materialization maps `<table>.id` to an Integer constant
equal to the stored row's id *converted by the wrapping `as i64` cast*
(`u128_as_i64`), which agrees with the id exactly when it is below
`2 ^ 63`. -/
theorem c8_id_key (t : String) (r : Row) (wr : RowMap)
    (h : rowToWorking t r = some wr) :
    getKV wr (qualify t ("id"))
      = some (Value.Const (Const.Number (u128_as_i64 r.id))) ∧
    (r.id < 2 ^ 63 → u128_as_i64 r.id = (r.id : Int)) := by
  constructor
  · have h' : Option.bind
        (r.columns.mapM fun kv =>
          (Value.from_serde_value kv.2).map (fun v => (qualify t kv.1, v)))
        (fun base => some (insertKV base
          (qualify t ("id"),
           Value.Const (Const.Number (u128_as_i64 r.id))))) = some wr := h
    obtain ⟨base, _, hw⟩ := Option.bind_eq_some.mp h'
    have hw' := Option.some_inj.mp hw
    subst hw'
    exact getKV_insertKV_self base _ _
  · intro hlt
    have hmod : r.id % 2 ^ 64 = r.id :=
      Nat.mod_eq_of_lt (lt_trans hlt (by norm_num))
    have hval : u128_as_i64 r.id
        = if r.id % 2 ^ 64 < 2 ^ 63 then ((r.id % 2 ^ 64 : Nat) : Int)
          else ((r.id % 2 ^ 64 : Nat) : Int) - 2 ^ 64 := rfl
    rw [hval, hmod, if_pos hlt]

/-- C8 counterexample: for an id of `2 ^ 63` (a valid 128-bit unsigned id,
and one the JSON loader can produce from a `u64`), the synthesized
`<table>.id` Integer is the wrapped value `-(2 ^ 63)`, not the stored id. -/
theorem c8_id_cast_counterexample :
    rowToWorking ("t") ⟨2 ^ 63, []⟩
      = some [(("t.id" : String), Value.Const (Const.Number (-(2 ^ 63 : Int))))] ∧
    (-(2 ^ 63 : Int)) ≠ ((2 ^ 63 : Nat) : Int) := by
  constructor
  · decide
  · decide

/-- Witness for C8 (amended) at id 1: the materialized row carries
`t.id ↦ 1` and the cast is the identity below `2 ^ 63`. -/
theorem c8_id_key_witness :
    getKV [(("t.id" : String), Value.Const (Const.Number 1))] (qualify ("t") ("id"))
      = some (Value.Const (Const.Number (u128_as_i64 1))) ∧
    u128_as_i64 1 = (1 : Int) := by
  have h := c8_id_key ("t") ⟨1, []⟩
      [(("t.id" : String), Value.Const (Const.Number 1))] (by decide)
  exact ⟨h.1, h.2 (by norm_num)⟩

/-- The characters of the source operand `'abc'` (an opening quote, the
content, a closing quote). -/
def c3_literal : List Char := quoteChar :: ('a' :: 'b' :: 'c' :: [quoteChar])

/-- C3 (the code at the failing input): for a WHERE operand starting with a
single quote, `parse_value` leaves the cursor ON the opening quote when it
scans for a quote, so it returns the empty Text constant and resumes right
after the *opening* quote — the literal's content and closing quote are
left unconsumed.  On the full query `SELECT t.a FROM t WHERE t.a = 'abc'`
the parse therefore succeeds with the WHERE right operand `Text ""`. -/
theorem c3_string_literal_bug :
    parse_value (c3_literal ++ (" rest").toList)
      = .ok (Value.Const (Const.String ("")),
             'a' :: 'b' :: 'c' :: quoteChar :: (" rest").toList) ∧
    parse (("SELECT t.a FROM t WHERE t.a = ").toList ++ c3_literal)
      = .ok ⟨[⟨"t", "a"⟩], "t", [],
             some ⟨Value.Column ⟨"t", "a"⟩, Comparison.Eq,
                   Value.Const (Const.String (""))⟩⟩ := by
  constructor
  · rfl
  · rfl

/-- Every join parsed by one iteration of the JOIN loop has `Value.Column`
operands on both sides of its ON predicate. -/
theorem parseJoinOne_columns (s : List Char) (p : Join × List Char)
    (h : parseJoinOne s = .ok p) :
    (∃ c, p.1.on_.left = Value.Column c) ∧
    (∃ c, p.1.on_.right = Value.Column c) := by
  rw [parseJoinOne] at h
  repeat' split at h
  all_goals try exact Except.noConfusion h
  injection h with h'
  subst h'
  exact ⟨⟨_, rfl⟩, ⟨_, rfl⟩⟩

theorem parseJoinsLoop_columns :
    ∀ (fuel : Nat) (acc : List Join) (s : List Char) (js : List Join)
      (rest : List Char),
      parseJoinsLoop fuel acc s = .ok (js, rest) →
      (∀ j ∈ acc, (∃ c, j.on_.left = Value.Column c) ∧
                  (∃ c, j.on_.right = Value.Column c)) →
      ∀ j ∈ js, (∃ c, j.on_.left = Value.Column c) ∧
                (∃ c, j.on_.right = Value.Column c) := by
  intro fuel
  induction fuel with
  | zero =>
      intro acc s js rest h
      simp [parseJoinsLoop] at h
  | succ n ih =>
      intro acc s js rest h hacc
      rw [parseJoinsLoop] at h
      split at h
      · split at h
        · simp at h
        · rename_i p heq
          refine ih _ _ _ _ h ?_
          intro j hj
          rcases List.mem_append.mp hj with hj | hj
          · exact hacc j hj
          · have hj' : j = p.1 := List.mem_singleton.mp hj
            subst hj'
            exact parseJoinOne_columns s p heq
      · injection h with h'
        have h1 : acc = js := congrArg Prod.fst h'
        subst h1
        exact hacc

/-- C5 (amended): both operands of every parsed JOIN ON predicate are
always qualified column references (`Value.Column`); `parse_joins` never
produces a `Const` operand. -/
theorem c5_join_operands_always_columns (s : List Char) (js : List Join)
    (rest : List Char) (h : parse_joins s = .ok (js, rest)) :
    ∀ j ∈ js, (∃ c, j.on_.left = Value.Column c) ∧
              (∃ c, j.on_.right = Value.Column c) := by
  unfold parse_joins at h
  refine parseJoinsLoop_columns _ _ _ _ _ h ?_
  intro j hj
  cases hj

/-- C5 counterexample: an integer-literal ON operand is not accepted — the
join grammar reads the operand with `consume_until(".")` and then demands a
dot, so `... JOIN t ON a.b = 5` is a parse error, not a `Const` operand. -/
theorem c5_join_literal_rejected :
    parse (("SELECT a.b FROM a JOIN t ON a.b = 5").toList)
      = .error ("Unexpected character") := by
  rfl

/-- C4 (amended): a parse failure, and an unknown FROM table after a
successful parse, both abort the whole query with no result rows — the
caller sees the single undifferentiated abort `none`. -/
theorem c4_abort_without_rows (s : List Char) (db : Database) :
    (parse_query s = none → runQuery s db = none) ∧
    (∀ q, parse_query s = some q → db.get q.from_ = none →
      runQuery s db = none) := by
  constructor
  · intro h
    simp [runQuery, h]
  · intro q hq hdb
    simp [runQuery, hq, execute, table_to_vec, hdb]

/-- C4 counterexample: a malformed query (a parse failure), an unknown FROM
table, and an unresolved WHERE column all surface to the caller as the same
value `none` (the model of the `unwrap` panic): no error value with a tag
distinguishing the three failure kinds ever reaches the caller —
`parse_query` unwraps the parser's internal `&str` error, and the engine
unwraps its lookups. -/
theorem c4_no_tag_counterexample :
    runQuery (("FOO").toList) ⟨[]⟩ = none ∧
    parse (("FOO").toList) = .error ("Unexpected character") ∧
    runQuery (("SELECT t.a FROM t").toList) ⟨[]⟩ = none ∧
    runQuery (("SELECT t.a FROM t WHERE x.y = 1").toList)
      ⟨[(("t" : String), ⟨[⟨1, []⟩]⟩)]⟩ = none ∧
    runQuery (("FOO").toList) ⟨[]⟩
      = runQuery (("SELECT t.a FROM t").toList) ⟨[]⟩ :=
  ⟨rfl, rfl, rfl, rfl, rfl⟩

/-- Witness for C4 (amended): the abort on a concrete parse failure and on
a concrete unknown FROM table. -/
theorem c4_abort_without_rows_witness :
    runQuery (("FOO").toList) ⟨[]⟩ = none ∧
    runQuery (("SELECT b.c FROM b").toList) ⟨[]⟩ = none := by
  constructor
  · exact (c4_abort_without_rows (("FOO").toList) ⟨[]⟩).1 (by rfl)
  · exact (c4_abort_without_rows (("SELECT b.c FROM b").toList) ⟨[]⟩).2
      ⟨[⟨"b", "c"⟩], "b", [], none⟩ (by rfl) (by rfl)

/-- Witness for C5 (amended) on a concrete successful JOIN parse. -/
theorem c5_join_operands_witness :
    parse_joins (("JOIN t ON a.b = c.d").toList)
      = .ok ([⟨"t", ⟨Value.Column ⟨"a", "b"⟩, Comparison.Eq,
                     Value.Column ⟨"c", "d"⟩⟩⟩], []) ∧
    (∃ c, (Value.Column (⟨"a", "b"⟩ : Column)) = Value.Column c) ∧
    (∃ c, (Value.Column (⟨"c", "d"⟩ : Column)) = Value.Column c) := by
  refine ⟨by rfl, ?_⟩
  have h := c5_join_operands_always_columns (("JOIN t ON a.b = c.d").toList)
      [⟨"t", ⟨Value.Column ⟨"a", "b"⟩, Comparison.Eq, Value.Column ⟨"c", "d"⟩⟩⟩]
      [] (by rfl)
  exact h _ (List.mem_singleton.mpr rfl)

/-! ## The pipeline invariant of C10 -/

/-- Every value stored in every row of a working relation is a `Const`
(equivalently: `get_const` succeeds on it). -/
def AllConst (rows : List RowMap) : Prop :=
  ∀ r ∈ rows, ∀ kv ∈ r, (Value.get_const kv.2).isSome

theorem mapM_option_mem {α β : Type} (f : α → Option β) :
    ∀ (l : List α) (out : List β), l.mapM f = some out →
      ∀ b ∈ out, ∃ a ∈ l, f a = some b := by
  intro l
  induction l with
  | nil =>
      intro out h b hb
      have h' : ([] : List β) = out := Option.some_inj.mp h
      subst h'
      cases hb
  | cons a t ih =>
      intro out h b hb
      rw [List.mapM_cons] at h
      obtain ⟨x, hx, h2⟩ := Option.bind_eq_some.mp h
      obtain ⟨xs, hxs, h3⟩ := Option.bind_eq_some.mp h2
      have h' : x :: xs = out := Option.some_inj.mp h3
      subst h'
      rcases List.mem_cons.mp hb with rfl | hb2
      · exact ⟨a, List.mem_cons_self a t, hx⟩
      · obtain ⟨a', ha', hfa⟩ := ih xs hxs b hb2
        exact ⟨a', List.mem_cons_of_mem _ ha', hfa⟩

theorem from_serde_const (jv : JValue) (v : Value)
    (h : Value.from_serde_value jv = some v) : (Value.get_const v).isSome := by
  cases jv with
  | NumberI64 n =>
      have h' := Option.some_inj.mp h
      subst h'
      rfl
  | NumberOther => exact Option.noConfusion h
  | Str s =>
      have h' := Option.some_inj.mp h
      subst h'
      rfl
  | Other => exact Option.noConfusion h

theorem allconst_rowToWorking (t : String) (r0 : Row) (wr : RowMap)
    (h : rowToWorking t r0 = some wr) :
    ∀ kv ∈ wr, (Value.get_const kv.2).isSome := by
  have h' : Option.bind
      (r0.columns.mapM fun kv =>
        (Value.from_serde_value kv.2).map (fun v => (qualify t kv.1, v)))
      (fun base => some (insertKV base
        (qualify t ("id"),
         Value.Const (Const.Number (u128_as_i64 r0.id))))) = some wr := h
  obtain ⟨base, hb, hw⟩ := Option.bind_eq_some.mp h'
  have hw' := Option.some_inj.mp hw
  subst hw'
  intro kv hkv
  rcases mem_insertKV hkv with rfl | hkv2
  · rfl
  · obtain ⟨kv0, _, hf⟩ := mapM_option_mem _ r0.columns base hb kv hkv2
    obtain ⟨v, hv, hpair⟩ := Option.map_eq_some'.mp hf
    have : kv.2 = v := congrArg Prod.snd hpair.symm
    rw [this]
    exact from_serde_const kv0.2 v hv

theorem allconst_table_to_vec (db : Database) (t : String) (rows : List RowMap)
    (h : table_to_vec db t = some rows) : AllConst rows := by
  have h' : Option.bind (db.get t)
      (fun tb => tb.rows.mapM (rowToWorking t)) = some rows := h
  obtain ⟨tb, _, hm⟩ := Option.bind_eq_some.mp h'
  intro r hr kv hkv
  obtain ⟨row0, _, hrow⟩ := mapM_option_mem _ tb.rows rows hm r hr
  exact allconst_rowToWorking t row0 r hrow kv hkv

theorem allconst1_insertKV {r : RowMap} {p : String × Value}
    (hr : ∀ kv ∈ r, (Value.get_const kv.2).isSome)
    (hp : (Value.get_const p.2).isSome) :
    ∀ kv ∈ insertKV r p, (Value.get_const kv.2).isSome := by
  intro kv hkv
  rcases mem_insertKV hkv with rfl | h2
  · exact hp
  · exact hr kv h2

theorem allconst1_foldl :
    ∀ (r : RowMap) (l : RowMap),
      (∀ kv ∈ l, (Value.get_const kv.2).isSome) →
      (∀ kv ∈ r, (Value.get_const kv.2).isSome) →
      ∀ kv ∈ r.foldl insertKV l, (Value.get_const kv.2).isSome := by
  intro r
  induction r with
  | nil =>
      intro l hl _
      exact hl
  | cons p t ih =>
      intro l hl hr
      rw [List.foldl_cons]
      exact ih (insertKV l p)
        (allconst1_insertKV hl (hr p (List.mem_cons_self p t)))
        (fun q hq => hr q (List.mem_cons_of_mem _ hq))

theorem allconst_join_one (onT : ValueTest) (row : RowMap)
    (hrow : ∀ kv ∈ row, (Value.get_const kv.2).isSome) :
    ∀ (jt out : List RowMap), AllConst jt →
      join_one onT row jt = some out → AllConst out := by
  intro jt
  induction jt with
  | nil =>
      intro out _ h
      have h' : ([] : List RowMap) = out := Option.some_inj.mp h
      subst h'
      intro r hr
      cases hr
  | cons jr t ih =>
      intro out hjt h
      obtain ⟨b, _, h2⟩ := Option.bind_eq_some.mp h
      obtain ⟨tail, htail, h3⟩ := Option.bind_eq_some.mp h2
      have h' := Option.some_inj.mp h3
      subst h'
      have hatail : AllConst tail :=
        ih tail (fun r hr => hjt r (List.mem_cons_of_mem _ hr)) htail
      cases b
      · rw [if_neg (by simp)]
        exact hatail
      · rw [if_pos rfl]
        intro r hr
        rcases List.mem_cons.mp hr with rfl | hr2
        · exact allconst1_foldl jr row hrow
            (hjt jr (List.mem_cons_self jr t))
        · exact hatail r hr2

theorem allconst_join_step (onT : ValueTest) :
    ∀ (rows jt out : List RowMap), AllConst rows → AllConst jt →
      join_step onT rows jt = some out → AllConst out := by
  intro rows
  induction rows with
  | nil =>
      intro jt out _ _ h
      have h' : ([] : List RowMap) = out := Option.some_inj.mp h
      subst h'
      intro r hr
      cases hr
  | cons r rest ih =>
      intro jt out hrows hjt h
      obtain ⟨xs, hxs, h2⟩ := Option.bind_eq_some.mp h
      obtain ⟨ys, hys, h3⟩ := Option.bind_eq_some.mp h2
      have h' := Option.some_inj.mp h3
      subst h'
      intro r' hr'
      rcases List.mem_append.mp hr' with hx | hy
      · exact allconst_join_one onT r
          (hrows r (List.mem_cons_self r rest)) jt xs hjt hxs r' hx
      · exact ih jt ys
          (fun a ha => hrows a (List.mem_cons_of_mem _ ha)) hjt hys r' hy

theorem allconst_joins (db : Database) :
    ∀ (js : List Join) (rows out : List RowMap), AllConst rows →
      joins db js rows = some out → AllConst out := by
  intro js
  induction js with
  | nil =>
      intro rows out hrows h
      have h' := Option.some_inj.mp h
      subst h'
      exact hrows
  | cons j rest ih =>
      intro rows out hrows h
      obtain ⟨jt, hjt, h2⟩ := Option.bind_eq_some.mp h
      obtain ⟨rows', hrows', h3⟩ := Option.bind_eq_some.mp h2
      exact ih rows' out
        (allconst_join_step j.on_ rows jt rows' hrows
          (allconst_table_to_vec db j.table_name jt hjt) hrows') h3

theorem mem_filter_rows (wt : ValueTest) :
    ∀ (rows out : List RowMap), filter_rows wt rows = some out →
      ∀ r ∈ out, r ∈ rows := by
  intro rows
  induction rows with
  | nil =>
      intro out h r hr
      have h' : ([] : List RowMap) = out := Option.some_inj.mp h
      subst h'
      cases hr
  | cons a t ih =>
      intro out h r hr
      obtain ⟨b, _, h2⟩ := Option.bind_eq_some.mp h
      obtain ⟨tail, htail, h3⟩ := Option.bind_eq_some.mp h2
      have h' := Option.some_inj.mp h3
      subst h'
      cases b
      · rw [if_neg (by simp)] at hr
        exact List.mem_cons_of_mem _ (ih tail htail r hr)
      · rw [if_pos rfl] at hr
        rcases List.mem_cons.mp hr with rfl | hr2
        · exact List.mem_cons_self _ _
        · exact List.mem_cons_of_mem _ (ih tail htail r hr2)

theorem allconst_select (sel : List Column) (rows : List RowMap)
    (h : AllConst rows) : AllConst (select sel rows) := by
  intro r' hr' kv hkv
  obtain ⟨r, hr, rfl⟩ := List.mem_map.mp hr'
  exact h r hr kv (List.mem_of_mem_filter hkv)

theorem allconst_execute (q : Query) (db : Database) (out : List RowMap)
    (h : execute q db = some out) : AllConst out := by
  obtain ⟨r1, h1, h2⟩ := Option.bind_eq_some.mp h
  obtain ⟨r2, h21, h22⟩ := Option.bind_eq_some.mp h2
  obtain ⟨r3, h31, h32⟩ := Option.bind_eq_some.mp h22
  have e3 := Option.some_inj.mp h32
  subst e3
  have a1 := allconst_table_to_vec db q.from_ r1 h1
  have a2 := allconst_joins db q.joins r1 r2 a1 h21
  have a3 : AllConst r3 := by
    cases hw : q.where_clause with
    | none =>
        rw [hw] at h31
        have e := Option.some_inj.mp h31
        subst e
        exact a2
    | some wt =>
        rw [hw] at h31
        intro r hr kv hkv
        exact a2 r (mem_filter_rows wt r2 r3 h31 r hr) kv hkv
  exact allconst_select q.select r3 a3

/-- C10: every pipeline stage only ever stores `Const` values under the
qualified keys of its working relation — materialization produces them,
join, filter and projection preserve them, so any `execute` output
satisfies the invariant; consequently, whenever a qualified-key lookup
during operand resolution finds a key, `get_const` on the found value
succeeds and `get_column_value` returns it — the non-constant branch is
unreachable on such rows. -/
theorem c10_working_values_always_const :
    (∀ (db : Database) (t : String) (rows : List RowMap),
        table_to_vec db t = some rows → AllConst rows) ∧
    (∀ (onT : ValueTest) (rows jt out : List RowMap),
        AllConst rows → AllConst jt →
        join_step onT rows jt = some out → AllConst out) ∧
    (∀ (wt : ValueTest) (rows out : List RowMap),
        AllConst rows → filter_rows wt rows = some out → AllConst out) ∧
    (∀ (sel : List Column) (rows : List RowMap),
        AllConst rows → AllConst (select sel rows)) ∧
    (∀ (q : Query) (db : Database) (out : List RowMap),
        execute q db = some out → AllConst out) ∧
    (∀ (row : RowMap), (∀ kv ∈ row, (Value.get_const kv.2).isSome) →
        ∀ (c : Column) (w : Value),
          getKV row (qualify c.table_name c.column_name) = some w →
          (Value.get_const w).isSome ∧
          get_column_value row (Value.Column c) = Value.get_const w) := by
  refine ⟨allconst_table_to_vec, allconst_join_step, ?_, allconst_select,
          allconst_execute, ?_⟩
  · intro wt rows out hrows h r hr kv hkv
    exact hrows r (mem_filter_rows wt rows out h r hr) kv hkv
  · intro row hrow c w h
    refine ⟨hrow (qualify c.table_name c.column_name, w) (getKV_some_mem h), ?_⟩
    have hval : get_column_value row (Value.Column c)
        = match getKV row (qualify c.table_name c.column_name) with
          | none => none
          | some w' => Value.get_const w' := rfl
    rw [hval, h]

/-- Witness for C10 on a concrete materialized relation and lookup. -/
theorem c10_working_values_witness :
    AllConst [[(("t.id" : String), Value.Const (Const.Number 1))]] ∧
    (Value.get_const (Value.Const (Const.Number 1))).isSome := by
  have h1 := c10_working_values_always_const.1
      ⟨[(("t" : String), ⟨[⟨1, []⟩]⟩)]⟩ ("t")
      [[(("t.id" : String), Value.Const (Const.Number 1))]] (by decide)
  have h2 := (c10_working_values_always_const.2.2.2.2.2
      [(("t.id" : String), Value.Const (Const.Number 1))]
      (fun kv hkv => h1 _ (List.mem_singleton.mpr rfl) kv hkv)
      ⟨"t", "id"⟩ (Value.Const (Const.Number 1)) (by decide)).1
  exact ⟨h1, h2⟩

end SimpleSQL
